import Mathlib

/-!
Verification of the Azure endpoint-resolver and adapter utilities of the
Light-RAGangthing_with_Azure_and_Gemini repository.

Strings are modelled as `List Char`.  The relevant parts of
`urllib.parse.urlparse` (scheme / netloc / path extraction, including the
`;params` split that `urlparse` performs on the final path segment) are
modelled explicitly, since `debug_tools/azure_config_parser.py` calls it.
Control-character stripping done by recent CPython versions is not modelled;
all inputs considered here are free of `\t`, `\r`, `\n`.
-/

/-- Python truthiness of an optional string: `None` and `""` are falsy. -/
def pyTruthy : Option (List Char) → Bool
  | none => false
  | some s => !s.isEmpty

/-- Split a char list at the first occurrence of `sep`:
`breakAt sep l = some (pre, post)` with `l = pre ++ sep :: post`,
`none` when `sep` does not occur.  Models Python's `str.find` + slicing. -/
def breakAt (sep : Char) : List Char → Option (List Char × List Char)
  | [] => none
  | c :: rest =>
    if c = sep then some ([], rest)
    else
      match breakAt sep rest with
      | none => none
      | some (pre, post) => some (c :: pre, post)

/-- Characters allowed in a URL scheme after the first one
(`scheme_chars` of `urllib.parse`): letters, digits, `+`, `-`, `.`. -/
def schemeChar (c : Char) : Bool := c.isAlphanum || c = '+' || c = '-' || c = '.'

/-- CPython `urlsplit` accepts the text before the first `:` as a scheme
iff it is nonempty, starts with an ASCII letter and continues with
`schemeChar`s. -/
def validScheme : List Char → Bool
  | [] => false
  | c :: rest => c.isAlpha && rest.all schemeChar

/-- A character that does not terminate the netloc part (`/`, `?`, `#`
terminate it in CPython `_splitnetloc`). -/
def notNetlocEnd (c : Char) : Bool := decide (c ≠ '/' ∧ c ≠ '?' ∧ c ≠ '#')

/-- A character that does not terminate the path (`?` starts the query,
`#` starts the fragment). -/
def notPathEnd (c : Char) : Bool := decide (c ≠ '?' ∧ c ≠ '#')

/-- Scheme extraction of CPython `urlsplit`: split at the first `:` when the
prefix is a valid scheme (which is then lower-cased), otherwise no scheme. -/
def splitScheme (url : List Char) : List Char × List Char :=
  match breakAt ':' url with
  | some (pre, post) =>
    if validScheme pre then (pre.map Char.toLower, post) else ([], url)
  | none => ([], url)

/-- Netloc extraction of CPython `urlsplit`: when the remainder starts with
`//`, the netloc runs up to the first `/`, `?` or `#`. -/
def splitNetloc (rest : List Char) : List Char × List Char :=
  match rest with
  | '/' :: '/' :: r => (r.takeWhile notNetlocEnd, r.dropWhile notNetlocEnd)
  | _ => ([], rest)

/-- Test for the `/` character. -/
def isSlashChar (c : Char) : Bool := decide (c = '/')

/-- Test for any character other than `/`. -/
def notSlashChar (c : Char) : Bool := decide (c ≠ '/')

/-- Test for any character other than `;`. -/
def notSemiChar (c : Char) : Bool := decide (c ≠ ';')

/-- The final `/`-separated segment of a char list (the whole list when it
contains no `/`). -/
def lastSegment (p : List Char) : List Char :=
  (p.reverse.takeWhile notSlashChar).reverse

/-- CPython `_splitparams`, as used by `urlparse`: drop a `;params` suffix
from the final path segment. -/
def pySplitparams (p : List Char) : List Char :=
  if '/' ∈ p then
    if ';' ∈ lastSegment p then
      p.take (p.length - (lastSegment p).length) ++ (lastSegment p).takeWhile notSemiChar
    else p
  else p.takeWhile notSemiChar

/-- The components of `urllib.parse.urlparse` used by the resolver. -/
structure UrlParts where
  scheme : List Char
  netloc : List Char
  path : List Char
deriving DecidableEq

/-- Model of `urllib.parse.urlparse`, restricted to the `scheme`, `netloc`
and `path` attributes read by `parse_azure_url`. -/
def pyUrlparse (url : List Char) : UrlParts :=
  { scheme := (splitScheme url).1,
    netloc := (splitNetloc (splitScheme url).2).1,
    path := pySplitparams ((splitNetloc (splitScheme url).2).2.takeWhile notPathEnd) }

/-- Python `str.strip('/')`: remove leading and trailing `/` characters. -/
def pyStripSlash (s : List Char) : List Char :=
  ((s.dropWhile isSlashChar).reverse.dropWhile isSlashChar).reverse

/-- Python `str.split('/')`: note `"".split('/') == ['']`. -/
def pySplitSlash : List Char → List (List Char)
  | [] => [[]]
  | c :: rest =>
    if c = '/' then [] :: pySplitSlash rest
    else
      match pySplitSlash rest with
      | [] => [[c]]
      | s :: ss => (c :: s) :: ss

/-- The deployment-name extraction of `parse_azure_url`
(`azure_config_parser.py` lines 39-43): locate the first path segment equal
to `deployments` and return the following segment, if any. -/
def findDeployment : List (List Char) → Option (List Char)
  | [] => none
  | p :: rest =>
    if p = "deployments".toList then rest.head? else findDeployment rest

/-- Model of `parse_azure_url` in `debug_tools/azure_config_parser.py` (lines 22-48):
falsy input yields `(None, None)`; otherwise the base URL is
`{scheme}://{netloc}/openai/` and the deployment name is the path segment
following the first `deployments` segment. -/
def parse_azure_url : Option (List Char) → Option (List Char) × Option (List Char)
  | none => (none, none)
  | some url =>
    if url.isEmpty then (none, none)
    else
      let parsed := pyUrlparse url
      let base_url := parsed.scheme ++ "://".toList ++ parsed.netloc ++ "/openai/".toList
      let path_parts := pySplitSlash (pyStripSlash parsed.path)
      (some base_url, findDeployment path_parts)

/-! ### Base64 / packed-float decoding (`azure_lightrag_fix.py` lines 111-116)

Embedding vectors are modelled at the bit level: each float32 component is
represented by its 32-bit pattern (a `Nat` below `2^32`), so
`np.frombuffer(..., dtype=np.float32)` is byte-regrouping and the plain-array
branch is the identity on the stored values. -/

/-- The standard base64 alphabet used by `base64.b64encode`/`b64decode`. -/
def b64Alphabet : List Char :=
  "ABCDEFGHIJKLMNOPQRSTUVWXYZabcdefghijklmnopqrstuvwxyz0123456789+/".toList

/-- The base64 digit for a 6-bit value. -/
def b64EncodeChar (n : Nat) : Char := b64Alphabet.getD n 'A'

/-- The 6-bit value of a base64 digit (64 for characters outside the
alphabet; `b64decode` only ever receives alphabet characters here). -/
def b64DecodeChar (c : Char) : Nat :=
  b64Alphabet.findIdx (fun x => decide (x = c))

/-- Encoding per `base64.b64encode` on a byte list (bytes as `Nat` below 256). -/
def b64encode : List Nat → List Char
  | [] => []
  | [a] => [b64EncodeChar (a / 4), b64EncodeChar (a % 4 * 16), '=', '=']
  | [a, b] =>
    [b64EncodeChar (a / 4), b64EncodeChar (a % 4 * 16 + b / 16),
     b64EncodeChar (b % 16 * 4), '=']
  | a :: b :: c :: rest =>
    b64EncodeChar (a / 4) :: b64EncodeChar (a % 4 * 16 + b / 16) ::
    b64EncodeChar (b % 16 * 4 + c / 64) :: b64EncodeChar (c % 64) :: b64encode rest

/-- Decoding per `base64.b64decode` on a padded base64 string, producing a byte list. -/
def b64decode : List Char → List Nat
  | c1 :: c2 :: c3 :: c4 :: rest =>
    let s1 := b64DecodeChar c1
    let s2 := b64DecodeChar c2
    if c3 = '=' then [s1 * 4 + s2 / 16]
    else
      let s3 := b64DecodeChar c3
      if c4 = '=' then [s1 * 4 + s2 / 16, s2 % 16 * 16 + s3 / 4]
      else
        (s1 * 4 + s2 / 16) :: (s2 % 16 * 16 + s3 / 4) ::
        (s3 % 4 * 64 + b64DecodeChar c4) :: b64decode rest
  | _ => []

/-- Little-endian packing of 32-bit words into bytes: the buffer layout of a
float32 numpy array, word by word. -/
def packLE32 : List Nat → List Nat
  | [] => []
  | w :: rest =>
    w % 256 :: w / 256 % 256 :: w / 65536 % 256 :: w / 16777216 % 256 :: packLE32 rest

/-- Regrouping of bytes into 32-bit little-endian words, as
`np.frombuffer` with dtype `np.float32` does. -/
def unpackLE32 : List Nat → List Nat
  | b0 :: b1 :: b2 :: b3 :: rest =>
    (b0 + 256 * b1 + 65536 * b2 + 16777216 * b3) :: unpackLE32 rest
  | _ => []

/-- The two wire encodings of one embedding-response item accepted by
`azure_openai_embed`: a plain numeric array or a base64 string. -/
inductive EmbeddingField where
  | arr (v : List Nat)
  | b64 (s : List Char)

/-- The per-item decoding expression of `azure_openai_embed`
(`azure_lightrag_fix.py` lines 112-114): `np.array(dp.embedding, float32)`
when the field is a list, otherwise
`np.frombuffer(base64.b64decode(dp.embedding), dtype=np.float32)`. -/
def decode_embedding_item : EmbeddingField → List Nat
  | EmbeddingField.arr v => v
  | EmbeddingField.b64 s => unpackLE32 (b64decode s)

/-! ### Keyword-argument filtering (`azure_lightrag_fix.py` lines 50-55, 85-90) -/

/-- The `lightrag_params` set stripped from `kwargs` before the SDK call,
identical in `azure_openai_complete_if_cache` and `azure_openai_embed`. -/
def lightrag_params : List (List Char) :=
  ["azure_endpoint".toList, "api_version".toList, "azure_deployment".toList,
   "hashing_kv".toList, "keyword_extraction".toList, "enable_cot".toList]

/-- The dict comprehension building `filtered_kwargs`: every pair of `kwargs`
whose key is not in `lightrag_params` is kept; keyword mappings are modelled
as association lists. -/
def filtered_kwargs {α : Type} (kwargs : List (List Char × α)) : List (List Char × α) :=
  kwargs.filter (fun kv => decide (kv.1 ∉ lightrag_params))

/-! ### Effect traces of the two Azure entry points (`azure_lightrag_fix.py`)

The observable resource/network effects of `azure_openai_complete_if_cache`
(lines 17-64) and `azure_openai_embed` (lines 67-118) are modelled as event
traces, parametrised by the environment contents and by whether the SDK call
succeeds (`apiOk = false` covers both an SDK exception and a cancellation
surfacing at the `await`; in either case Python runs `finally` blocks and
nothing else). -/

/-- Observable events of the two entry points. -/
inductive Ev where
  | openClient
  | apiCall
  | decodeResp
  | closeClient
  | raiseError (msg : List Char)
deriving DecidableEq

/-- The literal message of `raise ValueError(...)` in
`azure_openai_complete_if_cache` (line 31). -/
def completeConfigErrorMsg : List Char :=
  "Missing required Azure OpenAI configuration".toList

/-- The literal message of `raise ValueError(...)` in `azure_openai_embed`
(line 83). -/
def embedConfigErrorMsg : List Char :=
  "Missing required Azure OpenAI embedding configuration".toList

/-- The environment variables read by the two entry points. -/
structure AzureEnv where
  /-- Environment variable AZURE_OPENAI_API_KEY. -/
  apiKey : Option (List Char)
  /-- Environment variable AZURE_OPENAI_ENDPOINT. -/
  endpoint : Option (List Char)
  /-- Environment variable AZURE_OPENAI_LLM_DEPLOYMENT. -/
  llmDeployment : Option (List Char)
  /-- Environment variable AZURE_OPENAI_EMBEDDING_DEPLOYMENT. -/
  embeddingDeployment : Option (List Char)
deriving DecidableEq

/-- Effect trace of `azure_openai_complete_if_cache`: the config check
(lines 25-31) precedes client construction (line 33); the SDK call (line 58)
is awaited and the client is never closed on any path (no `finally`, no
`async with`).  `apiOk` does not change the emitted events. -/
def azure_openai_complete_if_cache_events (env : AzureEnv) (_apiOk : Bool) : List Ev :=
  if pyTruthy env.apiKey && pyTruthy env.endpoint && pyTruthy env.llmDeployment then
    [Ev.openClient, Ev.apiCall]
  else
    [Ev.raiseError completeConfigErrorMsg]

/-- Effect trace of `azure_openai_embed`: config check (lines 82-83) before
client construction (line 92); the SDK call and response decoding run inside
`try` (lines 98-116) and `await client.close()` runs in `finally` (line 118)
on both the success and the failure path. -/
def azure_openai_embed_events (env : AzureEnv) (apiOk : Bool) : List Ev :=
  if pyTruthy env.apiKey && pyTruthy env.endpoint && pyTruthy env.embeddingDeployment then
    Ev.openClient :: Ev.apiCall ::
      (if apiOk then [Ev.decodeResp, Ev.closeClient] else [Ev.closeClient])
  else
    [Ev.raiseError embedConfigErrorMsg]

/-- An environment with every variable set and non-empty. -/
def envFull : AzureEnv :=
  { apiKey := some "k".toList, endpoint := some "e".toList,
    llmDeployment := some "d".toList, embeddingDeployment := some "d2".toList }

/-- An environment whose API key is unset. -/
def envMissingKey : AzureEnv :=
  { apiKey := none, endpoint := some "e".toList,
    llmDeployment := some "d".toList, embeddingDeployment := some "d2".toList }

/-- An environment whose deployment variables are unset. -/
def envMissingDeployment : AzureEnv :=
  { apiKey := some "k".toList, endpoint := some "e".toList,
    llmDeployment := none, embeddingDeployment := none }

/-- An environment whose API key is set to the empty string. -/
def envEmptyKey : AzureEnv :=
  { apiKey := some [], endpoint := some "e".toList,
    llmDeployment := some "d".toList, embeddingDeployment := some "d2".toList }

/-! ### The test-query loop of the example scripts

`fixed_azure_custom_example.py` lines 79-87 and `fixed_azure_example.py`
lines 143-151 run the same control flow: for each query, log it, `try` the
query, log the answer on success, log the failure in `except` and keep
iterating (the `continue` in the first script is a no-op at the end of the
loop body). -/

/-- Per-query log events of the test-query loop. -/
inductive QueryEv where
  | attempt (q : List Char)
  | answered (q : List Char)
  | failedLog (q : List Char)
deriving DecidableEq

/-- The trace of the test-query loop over a batch of queries, each paired
with whether `rag.aquery` succeeds on it. -/
def processQueriesEvents : List (List Char × Bool) → List QueryEv
  | [] => []
  | (q, ok) :: rest =>
    QueryEv.attempt q ::
      (if ok then QueryEv.answered q else QueryEv.failedLog q) ::
      processQueriesEvents rest

/-- The queries attempted in a trace, in order. -/
def attemptedQueries (evs : List QueryEv) : List (List Char) :=
  evs.filterMap (fun e =>
    match e with
    | QueryEv.attempt q => some q
    | _ => none)

/-! ### CLI validation of the example scripts' `main` functions -/

/-- Observable events of a script's `main`. -/
inductive MainEv where
  | printUsage
  | errorFileNotFound
  | runProcessing
deriving DecidableEq

/-- Model of `main` in `fixed_azure_custom_example.py` (lines 103-115): wrong argument
count prints usage and calls `sys.exit(1)`; a missing file prints an error
and calls `sys.exit(1)`; otherwise processing runs (which catches every
exception itself, so the script then exits 0). -/
def fixed_azure_custom_example_main (argcIsTwo fileExists : Bool) : List MainEv × Nat :=
  if !argcIsTwo then ([MainEv.printUsage], 1)
  else if !fileExists then ([MainEv.errorFileNotFound], 1)
  else ([MainEv.runProcessing], 0)

/-- Model of `main` in `debug_tools/azure_openai_example.py` (lines 177-193): a
missing file is logged with `logger.error` followed by a plain `return`, so
the interpreter exits with status 0; otherwise processing runs and an
escaping exception (the function re-raises) makes the interpreter exit
non-zero. -/
def azure_openai_example_main (fileExists procOk : Bool) : List MainEv × Nat :=
  if !fileExists then ([MainEv.errorFileNotFound], 0)
  else ([MainEv.runProcessing], if procOk then 0 else 1)

/-- Model of `main` in `debug_tools/fixed_azure_example.py` (lines 163-179): same
structure as `azure_openai_example.py` — `logger.error` then plain `return`
on a missing file, hence exit status 0. -/
def fixed_azure_example_main (fileExists procOk : Bool) : List MainEv × Nat :=
  if !fileExists then ([MainEv.errorFileNotFound], 0)
  else ([MainEv.runProcessing], if procOk then 0 else 1)

/-- Substring test on char lists (used to state what an error message does
or does not mention). -/
def containsSub (needle : List Char) : List Char → Bool
  | [] => needle.isEmpty
  | c :: rest => needle.isPrefixOf (c :: rest) || containsSub needle rest

/-! ### List helper lemmas -/

theorem takeWhile_eq_self_of_all {α : Type} {p : α → Bool} :
    ∀ {l : List α}, (∀ c ∈ l, p c = true) → l.takeWhile p = l
  | [], _ => rfl
  | c :: l, h => by
    have hc : p c = true := h c (List.mem_cons_self c l)
    simp [List.takeWhile_cons, hc, takeWhile_eq_self_of_all (fun x hx => h x (List.mem_cons_of_mem c hx))]

theorem dropWhile_eq_nil_of_all {α : Type} {p : α → Bool} :
    ∀ {l : List α}, (∀ c ∈ l, p c = true) → l.dropWhile p = []
  | [], _ => rfl
  | c :: l, h => by
    have hc : p c = true := h c (List.mem_cons_self c l)
    simp [List.dropWhile_cons, hc, dropWhile_eq_nil_of_all (fun x hx => h x (List.mem_cons_of_mem c hx))]

theorem takeWhile_append_of_all {α : Type} {p : α → Bool} {x : α} {b : List α} (hx : p x = false) :
    ∀ {a : List α}, (∀ c ∈ a, p c = true) → (a ++ x :: b).takeWhile p = a
  | [], _ => by simp [List.takeWhile_cons, hx]
  | c :: a, h => by
    have hc : p c = true := h c (List.mem_cons_self c a)
    simp [List.takeWhile_cons, hc,
      takeWhile_append_of_all hx (fun y hy => h y (List.mem_cons_of_mem c hy))]

theorem dropWhile_append_of_all {α : Type} {p : α → Bool} {x : α} {b : List α} (hx : p x = false) :
    ∀ {a : List α}, (∀ c ∈ a, p c = true) → (a ++ x :: b).dropWhile p = x :: b
  | [], _ => by simp [List.dropWhile_cons, hx]
  | c :: a, h => by
    have hc : p c = true := h c (List.mem_cons_self c a)
    simp [List.dropWhile_cons, hc,
      dropWhile_append_of_all hx (fun y hy => h y (List.mem_cons_of_mem c hy))]

theorem dropWhile_append_all_true {α : Type} {p : α → Bool} {v : List α} :
    ∀ {u : List α}, (∀ c ∈ u, p c = true) → (u ++ v).dropWhile p = v.dropWhile p
  | [], _ => rfl
  | c :: u, h => by
    have hc : p c = true := h c (List.mem_cons_self c u)
    simp [List.dropWhile_cons, hc,
      dropWhile_append_all_true (fun y hy => h y (List.mem_cons_of_mem c hy))]

theorem dropWhile_cons_false {α : Type} {p : α → Bool} {x : α} {t : List α} (hx : p x = false) :
    (x :: t).dropWhile p = x :: t := by
  simp [List.dropWhile_cons, hx]

theorem takeWhile_append_stop {α : Type} {p : α → Bool} {x : α} {v : List α} (hx : p x = false) :
    ∀ (u : List α), (u ++ x :: v).takeWhile p = u.takeWhile p
  | [] => by simp [List.takeWhile_cons, hx]
  | c :: u => by
    cases hc : p c with
    | true => simp [List.takeWhile_cons, hc, takeWhile_append_stop hx u]
    | false => simp [List.takeWhile_cons, hc]

theorem dropWhile_append_left {α : Type} {p : α → Bool} {v : List α} :
    ∀ {u : List α}, (∃ c ∈ u, p c = false) →
      (u ++ v).dropWhile p = u.dropWhile p ++ v ∧ u.dropWhile p ≠ []
  | [], h => by simp at h
  | c :: u, h => by
    cases hc : p c with
    | false => simp [List.dropWhile_cons, hc]
    | true =>
      have hu : ∃ x ∈ u, p x = false := by
        rcases h with ⟨x, hx, hpx⟩
        rcases List.mem_cons.mp hx with rfl | hxu
        · rw [hc] at hpx; exact absurd hpx (by simp)
        · exact ⟨x, hxu, hpx⟩
      have ih := dropWhile_append_left (v := v) hu
      simp [List.dropWhile_cons, hc, ih.1, ih.2]

/-! ### Lemmas about the URL-parsing model -/

theorem mem_lastSegment {p : List Char} :
    ∀ c ∈ lastSegment p, c ∈ p ∧ c ≠ '/' := by
  intro c hc
  unfold lastSegment at hc
  rw [List.mem_reverse] at hc
  constructor
  · have := (List.takeWhile_prefix (l := p.reverse) (p := notSlashChar)).subset hc
    exact List.mem_reverse.mp this
  · have := List.mem_takeWhile_imp hc
    simpa [notSlashChar] using this

theorem lastSegment_append_sep (a b : List Char) :
    lastSegment (a ++ '/' :: b) = lastSegment b := by
  unfold lastSegment
  have h : (a ++ '/' :: b).reverse = b.reverse ++ '/' :: a.reverse := by
    simp
  rw [h, takeWhile_append_stop (by decide)]

theorem lastSegment_of_no_slash {p : List Char} (h : '/' ∉ p) : lastSegment p = p := by
  unfold lastSegment
  rw [takeWhile_eq_self_of_all, List.reverse_reverse]
  intro c hc
  simp only [notSlashChar, decide_eq_true_eq]
  intro rfl_eq
  exact h (List.mem_reverse.mp (rfl_eq ▸ hc))

theorem pySplitparams_eq_self {p : List Char} (h : ';' ∉ lastSegment p) :
    pySplitparams p = p := by
  unfold pySplitparams
  by_cases hs : '/' ∈ p
  · rw [if_pos hs, if_neg h]
  · rw [if_neg hs]
    apply takeWhile_eq_self_of_all
    intro c hc
    simp only [notSemiChar, decide_eq_true_eq]
    intro rfl_eq
    subst rfl_eq
    exact h ((lastSegment_of_no_slash hs).symm ▸ hc)

theorem pySplitSlash_no_sep : ∀ {a : List Char}, '/' ∉ a → pySplitSlash a = [a]
  | [], _ => rfl
  | c :: a, h => by
    have hc : ¬ c = '/' := fun hc => h (hc ▸ List.mem_cons_self c a)
    have ih := pySplitSlash_no_sep (fun hm => h (List.mem_cons_of_mem c hm))
    simp [pySplitSlash, hc, ih]

theorem pySplitSlash_append (b : List Char) :
    ∀ {a : List Char}, '/' ∉ a → pySplitSlash (a ++ '/' :: b) = a :: pySplitSlash b
  | [], _ => by simp [pySplitSlash]
  | c :: a, h => by
    have hc : ¬ c = '/' := fun hc => h (hc ▸ List.mem_cons_self c a)
    have ih := pySplitSlash_append b (fun hm => h (List.mem_cons_of_mem c hm))
    simp only [List.cons_append, pySplitSlash, if_neg hc]
    rw [show a.append ('/' :: b) = a ++ '/' :: b from rfl, ih]

theorem findDeployment_eq_none :
    ∀ {l : List (List Char)}, "deployments".toList ∉ l → findDeployment l = none
  | [], _ => rfl
  | p :: l, h => by
    have hp : ¬ p = "deployments".toList := fun hp => h (hp ▸ List.mem_cons_self p l)
    simp only [findDeployment, if_neg hp]
    exact findDeployment_eq_none (fun hm => h (List.mem_cons_of_mem p hm))

theorem breakAt_append {sep : Char} (b : List Char) :
    ∀ {a : List Char}, sep ∉ a → breakAt sep (a ++ sep :: b) = some (a, b)
  | [], _ => by simp [breakAt]
  | c :: a, h => by
    have hc : ¬ c = sep := fun hc => h (hc ▸ List.mem_cons_self c a)
    have ih := breakAt_append b (fun hm => h (List.mem_cons_of_mem c hm))
    simp [breakAt, hc, ih]

theorem validScheme_no_colon {s : List Char} (h : validScheme s = true) : ':' ∉ s := by
  cases s with
  | nil => simp
  | cons c rest =>
    simp only [validScheme, Bool.and_eq_true, List.all_eq_true] at h
    intro hm
    rcases List.mem_cons.mp hm with hc | hrest
    · rw [← hc] at h
      exact absurd h.1 (by decide)
    · have := h.2 ':' hrest
      exact absurd this (by decide)

theorem validScheme_ne_nil {s : List Char} (h : validScheme s = true) : s ≠ [] := by
  cases s with
  | nil => exact absurd h (by decide)
  | cons c rest => simp

theorem splitScheme_structured {scheme : List Char} (rest : List Char)
    (hs : validScheme scheme = true) (hl : scheme.map Char.toLower = scheme) :
    splitScheme (scheme ++ ':' :: rest) = (scheme, rest) := by
  unfold splitScheme
  rw [breakAt_append rest (validScheme_no_colon hs)]
  simp [hs, hl]

theorem splitNetloc_structured {host rest : List Char}
    (hh : ∀ c ∈ host, notNetlocEnd c = true)
    (hr : ∀ x, rest.head? = some x → notNetlocEnd x = false) :
    splitNetloc ('/' :: '/' :: (host ++ rest)) = (host, rest) := by
  have hsplit : splitNetloc ('/' :: '/' :: (host ++ rest)) =
      ((host ++ rest).takeWhile notNetlocEnd, (host ++ rest).dropWhile notNetlocEnd) := rfl
  rw [hsplit]
  cases rest with
  | nil =>
    rw [List.append_nil, takeWhile_eq_self_of_all hh, dropWhile_eq_nil_of_all hh]
  | cons x rest =>
    have hx : notNetlocEnd x = false := hr x rfl
    rw [takeWhile_append_of_all hx hh, dropWhile_append_of_all hx hh]

theorem pyUrlparse_structured {scheme host rest : List Char}
    (hs : validScheme scheme = true) (hl : scheme.map Char.toLower = scheme)
    (hh : ∀ c ∈ host, notNetlocEnd c = true)
    (hr : ∀ x, rest.head? = some x → notNetlocEnd x = false) :
    pyUrlparse (scheme ++ "://".toList ++ host ++ rest) =
      { scheme := scheme, netloc := host,
        path := pySplitparams (rest.takeWhile notPathEnd) } := by
  have h1 : scheme ++ "://".toList ++ host ++ rest =
      scheme ++ ':' :: ('/' :: '/' :: (host ++ rest)) := by
    simp
  rw [h1]
  unfold pyUrlparse
  rw [splitScheme_structured _ hs hl]
  rw [splitNetloc_structured hh hr]

theorem parse_azure_url_structured {scheme host rest : List Char}
    (hs : validScheme scheme = true) (hl : scheme.map Char.toLower = scheme)
    (hh : ∀ c ∈ host, notNetlocEnd c = true)
    (hr : ∀ x, rest.head? = some x → notNetlocEnd x = false) :
    parse_azure_url (some (scheme ++ "://".toList ++ host ++ rest)) =
      (some (scheme ++ "://".toList ++ host ++ "/openai/".toList),
       findDeployment (pySplitSlash (pyStripSlash
         (pySplitparams (rest.takeWhile notPathEnd))))) := by
  have hne : (scheme ++ "://".toList ++ host ++ rest).isEmpty = false := by
    cases hsch : scheme with
    | nil => exact absurd (hsch ▸ hs) (by decide)
    | cons c s => simp [hsch]
  simp only [parse_azure_url, hne, Bool.false_eq_true, if_false,
    pyUrlparse_structured hs hl hh hr]

theorem dropWhile_cons_true {α : Type} {p : α → Bool} {x : α} {t : List α} (hx : p x = true) :
    (x :: t).dropWhile p = t.dropWhile p := by
  simp [List.dropWhile_cons, hx]

/-- Stripping `/` from both ends of `/openai/deployments/<name>/<op>` leaves
`openai/deployments/<name>` followed by either nothing or `/` and a
remainder of `<op>`. -/
theorem pyStripSlash_deployments (name op : List Char)
    (hname : '/' ∉ name) (hnn : name ≠ []) :
    ∃ tail, (tail = [] ∨ ∃ w, tail = '/' :: w) ∧
      pyStripSlash ("/openai/deployments/".toList ++ name ++ '/' :: op) =
        "openai/deployments/".toList ++ name ++ tail := by
  have hlit : "/openai/deployments/".toList = '/' :: "openai/deployments/".toList := rfl
  have hlit2 : "openai/deployments/".toList = 'o' :: "penai/deployments/".toList := rfl
  have hq : isSlashChar '/' = true := rfl
  have hqo : isSlashChar 'o' = false := rfl
  -- the left strip removes exactly the single leading slash
  have hleft : ("/openai/deployments/".toList ++ name ++ '/' :: op).dropWhile isSlashChar =
      "openai/deployments/".toList ++ name ++ '/' :: op := by
    rw [hlit, List.cons_append, List.cons_append, dropWhile_cons_true hq]
    rw [hlit2, List.cons_append, List.cons_append, dropWhile_cons_false hqo]
  unfold pyStripSlash
  rw [hleft]
  -- name ends in a non-slash character
  obtain rfl | ⟨n0, a, hna⟩ := List.eq_nil_or_concat name
  · exact absurd rfl hnn
  rw [List.concat_eq_append] at hna
  subst hna
  have haMem : a ∈ n0 ++ [a] := List.mem_append_right _ (List.mem_singleton_self a)
  have ha : isSlashChar a = false :=
    decide_eq_false (fun h => hname (h ▸ haMem))
  have hrev : ("openai/deployments/".toList ++ (n0 ++ [a]) ++ '/' :: op).reverse =
      op.reverse ++ '/' :: (a :: (n0.reverse ++ "openai/deployments/".toList.reverse)) := by
    simp
  rw [hrev]
  by_cases hop : ∀ c ∈ op, c = '/'
  · -- the whole of `<op>` (possibly empty) is stripped away on the right
    have hall : ∀ c ∈ op.reverse ++ ['/'], isSlashChar c = true := by
      intro c hc
      rcases List.mem_append.mp hc with hc | hc
      · exact decide_eq_true (hop c (List.mem_reverse.mp hc))
      · exact decide_eq_true (List.mem_singleton.mp hc)
    have hsplit : op.reverse ++ '/' :: (a :: (n0.reverse ++ "openai/deployments/".toList.reverse)) =
        (op.reverse ++ ['/']) ++ (a :: (n0.reverse ++ "openai/deployments/".toList.reverse)) := by
      simp
    rw [hsplit, dropWhile_append_all_true hall, dropWhile_cons_false ha]
    refine ⟨[], Or.inl rfl, ?_⟩
    simp
  · -- `<op>` keeps a non-slash character, only its trailing slashes go
    push_neg at hop
    rcases hop with ⟨c, hc, hcne⟩
    have hex : ∃ x ∈ op.reverse, isSlashChar x = false :=
      ⟨c, List.mem_reverse.mpr hc, decide_eq_false hcne⟩
    have hdl := dropWhile_append_left
      (v := '/' :: (a :: (n0.reverse ++ "openai/deployments/".toList.reverse))) hex
    rw [hdl.1]
    refine ⟨'/' :: (op.reverse.dropWhile isSlashChar).reverse, Or.inr ⟨_, rfl⟩, ?_⟩
    simp

/-- Locating `deployments` in the split of `openai/deployments/<name><tail>`
yields `<name>`, for `<tail>` empty or starting with `/`. -/
theorem findDeployment_deployments_path (name tail : List Char)
    (hname : '/' ∉ name) (htail : tail = [] ∨ ∃ w, tail = '/' :: w) :
    findDeployment (pySplitSlash ("openai/deployments/".toList ++ name ++ tail)) =
      some name := by
  have hlit : "openai/deployments/".toList ++ name ++ tail =
      "openai".toList ++ '/' :: ("deployments".toList ++ '/' :: (name ++ tail)) := by
    have : "openai/deployments/".toList =
        "openai".toList ++ '/' :: ("deployments".toList ++ ['/']) := rfl
    rw [this]
    simp
  rw [hlit, pySplitSlash_append _ (by decide), pySplitSlash_append _ (by decide)]
  have hne : ¬ "openai".toList = "deployments".toList := by decide
  simp only [findDeployment, if_neg hne, if_pos rfl]
  rcases htail with rfl | ⟨w, rfl⟩
  · rw [List.append_nil, pySplitSlash_no_sep hname]
    rfl
  · rw [pySplitSlash_append _ hname]
    rfl

/-- C1: for a full URL `scheme://host/openai/deployments/<name>/<op>?<query>`
(scheme a valid lower-case URL scheme; host, name without `/`, `?`, `#`;
name nonempty; op without `?`, `#`, `;`), `parse_azure_url` returns base URL
`scheme://host/openai/` and deployment `<name>`, whatever `<op>` and the
query string are. -/
theorem parse_azure_url_full_form
    (scheme host name op query : List Char)
    (hs : validScheme scheme = true)
    (hl : scheme.map Char.toLower = scheme)
    (hhost : ∀ c ∈ host, c ≠ '/' ∧ c ≠ '?' ∧ c ≠ '#')
    (hnn : name ≠ [])
    (hname : ∀ c ∈ name, c ≠ '/' ∧ c ≠ '?' ∧ c ≠ '#')
    (hop : ∀ c ∈ op, c ≠ '?' ∧ c ≠ '#' ∧ c ≠ ';') :
    parse_azure_url (some (scheme ++ "://".toList ++ host ++
        ("/openai/deployments/".toList ++ name ++ '/' :: op ++ '?' :: query))) =
      (some (scheme ++ "://".toList ++ host ++ "/openai/".toList), some name) := by
  have hh : ∀ c ∈ host, notNetlocEnd c = true := by
    intro c hc
    simp only [notNetlocEnd, decide_eq_true_eq]
    exact hhost c hc
  have hhead : ("/openai/deployments/".toList ++ name ++ '/' :: op ++ '?' :: query).head? =
      some '/' := rfl
  have hr : ∀ x, ("/openai/deployments/".toList ++ name ++ '/' :: op ++ '?' :: query).head? =
      some x → notNetlocEnd x = false := by
    intro x hx
    rw [hhead] at hx
    cases hx
    decide
  rw [parse_azure_url_structured hs hl hh hr]
  simp only [Prod.mk.injEq, true_and]
  have hnameNoSlash : '/' ∉ name := fun h => (hname '/' h).1 rfl
  have h1 : ("/openai/deployments/".toList ++ name ++ '/' :: op ++ '?' :: query).takeWhile
      notPathEnd = "/openai/deployments/".toList ++ name ++ '/' :: op := by
    have hassoc : "/openai/deployments/".toList ++ name ++ '/' :: op ++ '?' :: query =
        ("/openai/deployments/".toList ++ name ++ '/' :: op) ++ '?' :: query := by
      simp
    rw [hassoc]
    apply takeWhile_append_of_all (by decide)
    have hA : ∀ c ∈ "/openai/deployments/".toList, notPathEnd c = true := by decide
    intro c hc
    rcases List.mem_append.mp hc with hc2 | hc2
    · rcases List.mem_append.mp hc2 with hc3 | hc3
      · exact hA c hc3
      · simp only [notPathEnd, decide_eq_true_eq]
        exact ⟨(hname c hc3).2.1, (hname c hc3).2.2⟩
    · rcases List.mem_cons.mp hc2 with rfl | hc3
      · decide
      · simp only [notPathEnd, decide_eq_true_eq]
        exact ⟨(hop c hc3).1, (hop c hc3).2.1⟩
  rw [h1]
  have h2 : pySplitparams ("/openai/deployments/".toList ++ name ++ '/' :: op) =
      "/openai/deployments/".toList ++ name ++ '/' :: op := by
    apply pySplitparams_eq_self
    have hls : lastSegment ("/openai/deployments/".toList ++ name ++ '/' :: op) =
        lastSegment op := by
      have hassoc : "/openai/deployments/".toList ++ name ++ '/' :: op =
          ("/openai/deployments/".toList ++ name) ++ '/' :: op := by
        simp
      rw [hassoc, lastSegment_append_sep]
    rw [hls]
    intro hmem
    exact (hop ';' (mem_lastSegment ';' hmem).1).2.2 rfl
  rw [h2]
  obtain ⟨tail, htail, hstrip⟩ := pyStripSlash_deployments name op hnameNoSlash hnn
  rw [hstrip]
  exact findDeployment_deployments_path name tail hnameNoSlash htail

/-- Witness for C1 at the spec's example URL. -/
theorem parse_azure_url_full_form_witness :
    (validScheme "https".toList = true
     ∧ "https".toList.map Char.toLower = "https".toList
     ∧ (∀ c ∈ "acme-east2.cognitiveservices.azure.com".toList, c ≠ '/' ∧ c ≠ '?' ∧ c ≠ '#')
     ∧ "gpt-4o-mini".toList ≠ []
     ∧ (∀ c ∈ "gpt-4o-mini".toList, c ≠ '/' ∧ c ≠ '?' ∧ c ≠ '#')
     ∧ (∀ c ∈ "chat/completions".toList, c ≠ '?' ∧ c ≠ '#' ∧ c ≠ ';'))
    ∧ parse_azure_url (some ("https".toList ++ "://".toList ++
        "acme-east2.cognitiveservices.azure.com".toList ++
        ("/openai/deployments/".toList ++ "gpt-4o-mini".toList ++
          '/' :: "chat/completions".toList ++ '?' :: "api-version=2025-01-01-preview".toList))) =
      (some ("https".toList ++ "://".toList ++
        "acme-east2.cognitiveservices.azure.com".toList ++ "/openai/".toList),
       some "gpt-4o-mini".toList) :=
  ⟨⟨by decide, by decide, by decide, by decide, by decide, by decide⟩,
   parse_azure_url_full_form _ _ _ _ _ (by decide) (by decide) (by decide) (by decide)
     (by decide) (by decide)⟩

/-- C5 counterexample: for the non-empty URL `https://h/x` the resolver
returns base URL `https://h/openai/`, which is not a prefix of the original
URL (the claim asserts the prefix property for every non-empty URL). -/
theorem parse_azure_url_prefix_counterexample :
    parse_azure_url (some "https://h/x".toList) =
      (some "https://h/openai/".toList, none)
    ∧ ("https://h/openai/".toList).isPrefixOf "https://h/x".toList = false := by
  constructor
  · rfl
  · rfl

/-- C5 amended: the returned base URL always ends in `/openai/`, and it is a
prefix of the original URL whenever the URL's path starts with `/openai/`
(for a well-formed `scheme://host` head); for other paths the prefix
property can fail, as the counterexample shows. -/
theorem parse_azure_url_base_invariant
    (scheme host tail : List Char)
    (hs : validScheme scheme = true)
    (hl : scheme.map Char.toLower = scheme)
    (hhost : ∀ c ∈ host, c ≠ '/' ∧ c ≠ '?' ∧ c ≠ '#') :
    (parse_azure_url (some (scheme ++ "://".toList ++ host ++
        ("/openai/".toList ++ tail)))).1 =
      some (scheme ++ "://".toList ++ host ++ "/openai/".toList)
    ∧ (scheme ++ "://".toList ++ host ++ "/openai/".toList) <+:
        (scheme ++ "://".toList ++ host ++ ("/openai/".toList ++ tail))
    ∧ "/openai/".toList <:+ (scheme ++ "://".toList ++ host ++ "/openai/".toList) := by
  have hh : ∀ c ∈ host, notNetlocEnd c = true := by
    intro c hc
    simp only [notNetlocEnd, decide_eq_true_eq]
    exact hhost c hc
  have hhead : ("/openai/".toList ++ tail).head? = some '/' := rfl
  have hr : ∀ x, ("/openai/".toList ++ tail).head? = some x → notNetlocEnd x = false := by
    intro x hx
    rw [hhead] at hx
    cases hx
    decide
  refine ⟨?_, ?_, ?_⟩
  · rw [parse_azure_url_structured hs hl hh hr]
  · have hassoc : scheme ++ "://".toList ++ host ++ ("/openai/".toList ++ tail) =
        (scheme ++ "://".toList ++ host ++ "/openai/".toList) ++ tail := by
      simp
    rw [hassoc]
    exact List.prefix_append _ _
  · have hassoc : scheme ++ "://".toList ++ host ++ "/openai/".toList =
        (scheme ++ "://".toList ++ host) ++ "/openai/".toList := by
      simp
    rw [hassoc]
    exact List.suffix_append _ _

/-- Witness for the amended C5 at a concrete URL. -/
theorem parse_azure_url_base_invariant_witness :
    (validScheme "https".toList = true
     ∧ "https".toList.map Char.toLower = "https".toList
     ∧ (∀ c ∈ "h".toList, c ≠ '/' ∧ c ≠ '?' ∧ c ≠ '#'))
    ∧ ((parse_azure_url (some ("https".toList ++ "://".toList ++ "h".toList ++
          ("/openai/".toList ++ "models?x".toList)))).1 =
        some ("https".toList ++ "://".toList ++ "h".toList ++ "/openai/".toList)
       ∧ ("https".toList ++ "://".toList ++ "h".toList ++ "/openai/".toList) <+:
          ("https".toList ++ "://".toList ++ "h".toList ++
            ("/openai/".toList ++ "models?x".toList))
       ∧ "/openai/".toList <:+
          ("https".toList ++ "://".toList ++ "h".toList ++ "/openai/".toList)) :=
  ⟨⟨by decide, by decide, by decide⟩,
   parse_azure_url_base_invariant _ _ _ (by decide) (by decide) (by decide)⟩

/-- C6: a URL `scheme://host<rest>` whose path contains no `deployments`
segment resolves to deployment `none` and base URL `scheme://host/openai/`. -/
theorem parse_azure_url_no_deployments
    (scheme host rest : List Char)
    (hs : validScheme scheme = true)
    (hl : scheme.map Char.toLower = scheme)
    (hhost : ∀ c ∈ host, c ≠ '/' ∧ c ≠ '?' ∧ c ≠ '#')
    (hr : ∀ x, rest.head? = some x → (x = '/' ∨ x = '?' ∨ x = '#'))
    (hnd : "deployments".toList ∉
      pySplitSlash (pyStripSlash (pySplitparams (rest.takeWhile notPathEnd)))) :
    parse_azure_url (some (scheme ++ "://".toList ++ host ++ rest)) =
      (some (scheme ++ "://".toList ++ host ++ "/openai/".toList), none) := by
  have hh : ∀ c ∈ host, notNetlocEnd c = true := by
    intro c hc
    simp only [notNetlocEnd, decide_eq_true_eq]
    exact hhost c hc
  have hr2 : ∀ x, rest.head? = some x → notNetlocEnd x = false := by
    intro x hx
    rcases hr x hx with h | h | h <;> subst h <;> decide
  rw [parse_azure_url_structured hs hl hh hr2, findDeployment_eq_none hnd]

/-- Witness for C6 at a concrete URL without a `deployments` segment. -/
theorem parse_azure_url_no_deployments_witness :
    (validScheme "https".toList = true
     ∧ "https".toList.map Char.toLower = "https".toList
     ∧ (∀ c ∈ "h".toList, c ≠ '/' ∧ c ≠ '?' ∧ c ≠ '#')
     ∧ "deployments".toList ∉
        pySplitSlash (pyStripSlash (pySplitparams
          ("/v1/models?x=1".toList.takeWhile notPathEnd))))
    ∧ parse_azure_url (some ("https".toList ++ "://".toList ++ "h".toList ++
        "/v1/models?x=1".toList)) =
      (some ("https".toList ++ "://".toList ++ "h".toList ++ "/openai/".toList), none) :=
  ⟨⟨by decide, by decide, by decide, by decide⟩,
   parse_azure_url_no_deployments _ _ _ (by decide) (by decide) (by decide)
     (by
       intro x hx
       have hx2 : some '/' = some x := hx
       cases hx2
       exact Or.inl rfl)
     (by decide)⟩

/-- C7: an absent or empty input URL resolves to `(absent, absent)`
(`azure_config_parser.py` lines 24-25), and the model is a total function,
so no exception can be raised. -/
theorem parse_azure_url_absent_or_empty :
    parse_azure_url none = (none, none) ∧ parse_azure_url (some []) = (none, none) := by
  constructor <;> rfl

/-! ### Base64 and packing lemmas -/

theorem b64_char_inverse :
    ∀ s : Fin 64, b64DecodeChar (b64EncodeChar s.val) = s.val ∧ b64EncodeChar s.val ≠ '=' := by
  decide

theorem b64DecodeChar_encode {s : Nat} (hs : s < 64) :
    b64DecodeChar (b64EncodeChar s) = s :=
  (b64_char_inverse ⟨s, hs⟩).1

theorem b64EncodeChar_ne_pad {s : Nat} (hs : s < 64) : ¬ b64EncodeChar s = '=' :=
  (b64_char_inverse ⟨s, hs⟩).2

theorem b64decode_pad2 (c1 c2 : Char) :
    b64decode [c1, c2, '=', '='] = [b64DecodeChar c1 * 4 + b64DecodeChar c2 / 16] := rfl

theorem b64decode_pad1 (c1 c2 c3 : Char) (h3 : ¬ c3 = '=') :
    b64decode [c1, c2, c3, '='] =
      [b64DecodeChar c1 * 4 + b64DecodeChar c2 / 16,
       b64DecodeChar c2 % 16 * 16 + b64DecodeChar c3 / 4] := by
  simp only [b64decode]
  rw [if_neg h3]
  exact if_pos trivial

theorem b64decode_four (c1 c2 c3 c4 : Char) (rest : List Char)
    (h3 : ¬ c3 = '=') (h4 : ¬ c4 = '=') :
    b64decode (c1 :: c2 :: c3 :: c4 :: rest) =
      (b64DecodeChar c1 * 4 + b64DecodeChar c2 / 16) ::
      (b64DecodeChar c2 % 16 * 16 + b64DecodeChar c3 / 4) ::
      (b64DecodeChar c3 % 4 * 64 + b64DecodeChar c4) :: b64decode rest := by
  simp only [b64decode]
  rw [if_neg h3, if_neg h4]

theorem b64_roundtrip :
    ∀ bs : List Nat, (∀ b ∈ bs, b < 256) → b64decode (b64encode bs) = bs
  | [], _ => rfl
  | [a], h => by
    have ha : a < 256 := h a (by simp)
    have h1 : a / 4 < 64 := by omega
    have h2 : a % 4 * 16 < 64 := by omega
    have expand : b64encode [a] = [b64EncodeChar (a / 4), b64EncodeChar (a % 4 * 16), '=', '='] := rfl
    rw [expand, b64decode_pad2, b64DecodeChar_encode h1, b64DecodeChar_encode h2]
    have e1 : a / 4 * 4 + a % 4 * 16 / 16 = a := by omega
    rw [e1]
  | [a, b], h => by
    have ha : a < 256 := h a (by simp)
    have hb : b < 256 := h b (by simp)
    have h1 : a / 4 < 64 := by omega
    have h2 : a % 4 * 16 + b / 16 < 64 := by omega
    have h3 : b % 16 * 4 < 64 := by omega
    have expand : b64encode [a, b] =
        [b64EncodeChar (a / 4), b64EncodeChar (a % 4 * 16 + b / 16),
         b64EncodeChar (b % 16 * 4), '='] := rfl
    rw [expand, b64decode_pad1 _ _ _ (b64EncodeChar_ne_pad h3)]
    rw [b64DecodeChar_encode h1, b64DecodeChar_encode h2, b64DecodeChar_encode h3]
    have e1 : (a / 4) * 4 + (a % 4 * 16 + b / 16) / 16 = a := by omega
    have e2 : (a % 4 * 16 + b / 16) % 16 * 16 + b % 16 * 4 / 4 = b := by omega
    rw [e1, e2]
  | a :: b :: c :: rest, h => by
    have ha : a < 256 := h a (by simp)
    have hb : b < 256 := h b (by simp)
    have hc : c < 256 := h c (by simp)
    have h1 : a / 4 < 64 := by omega
    have h2 : a % 4 * 16 + b / 16 < 64 := by omega
    have h3 : b % 16 * 4 + c / 64 < 64 := by omega
    have h4 : c % 64 < 64 := by omega
    have hrest : ∀ x ∈ rest, x < 256 := by
      intro x hx
      exact h x (by simp [hx])
    have expand : b64encode (a :: b :: c :: rest) =
        b64EncodeChar (a / 4) :: b64EncodeChar (a % 4 * 16 + b / 16) ::
        b64EncodeChar (b % 16 * 4 + c / 64) :: b64EncodeChar (c % 64) ::
        b64encode rest := rfl
    rw [expand, b64decode_four _ _ _ _ _
      (b64EncodeChar_ne_pad h3) (b64EncodeChar_ne_pad h4)]
    rw [b64DecodeChar_encode h1, b64DecodeChar_encode h2, b64DecodeChar_encode h3,
      b64DecodeChar_encode h4, b64_roundtrip rest hrest]
    have e1 : (a / 4) * 4 + (a % 4 * 16 + b / 16) / 16 = a := by omega
    have e2 : (a % 4 * 16 + b / 16) % 16 * 16 + (b % 16 * 4 + c / 64) / 4 = b := by omega
    have e3 : (b % 16 * 4 + c / 64) % 4 * 64 + c % 64 = c := by omega
    rw [e1, e2, e3]

theorem packLE32_bytes_lt : ∀ (v : List Nat), ∀ b ∈ packLE32 v, b < 256
  | [] => by simp [packLE32]
  | w :: rest => by
    intro b hb
    simp only [packLE32, List.mem_cons] at hb
    rcases hb with rfl | rfl | rfl | rfl | hb
    · omega
    · omega
    · omega
    · omega
    · exact packLE32_bytes_lt rest b hb

theorem unpack_pack : ∀ (v : List Nat), (∀ w ∈ v, w < 4294967296) →
    unpackLE32 (packLE32 v) = v
  | [], _ => rfl
  | w :: rest, h => by
    have hw : w < 4294967296 := h w (by simp)
    have hrest : ∀ x ∈ rest, x < 4294967296 := by
      intro x hx
      exact h x (by simp [hx])
    simp only [packLE32, unpackLE32]
    rw [unpack_pack rest hrest]
    have : w % 256 + 256 * (w / 256 % 256) + 65536 * (w / 65536 % 256) +
        16777216 * (w / 16777216 % 256) = w := by omega
    rw [this]

/-- C4: the two supported encodings of one embedding item decode to the same
vector — a base64-encoded packed float32 buffer of a vector yields exactly
that vector, as the plain-array branch does (float32 components modelled by
their 32-bit patterns). -/
theorem decode_embedding_item_equiv (v : List Nat) (h : ∀ w ∈ v, w < 4294967296) :
    decode_embedding_item (EmbeddingField.b64 (b64encode (packLE32 v))) =
      decode_embedding_item (EmbeddingField.arr v) := by
  simp only [decode_embedding_item]
  rw [b64_roundtrip (packLE32 v) (packLE32_bytes_lt v)]
  exact unpack_pack v h

/-- Witness for C4 on a concrete vector of 32-bit patterns. -/
theorem decode_embedding_item_equiv_witness :
    (∀ w ∈ [0, 1, 305419896, 4294967295], w < 4294967296)
    ∧ decode_embedding_item (EmbeddingField.b64 (b64encode
        (packLE32 [0, 1, 305419896, 4294967295]))) =
      decode_embedding_item (EmbeddingField.arr [0, 1, 305419896, 4294967295]) :=
  ⟨by decide, decode_embedding_item_equiv _ (by decide)⟩

/-! ### Claims about the Azure entry-point effect traces -/

/-- C3 counterexample: with a fully-populated environment,
`azure_openai_complete_if_cache` opens a client and never closes it, on a
normally-completing call — refuting the claim that every client opened by
the completion and embedding functions is released on every exit path. -/
theorem azure_complete_no_close_counterexample :
    Ev.openClient ∈ azure_openai_complete_if_cache_events envFull true
    ∧ Ev.closeClient ∉ azure_openai_complete_if_cache_events envFull true := by
  decide

/-- C3 amended: `azure_openai_embed` closes any client it opens on every
exit path (its SDK call sits in `try`/`finally`), while
`azure_openai_complete_if_cache` never closes the client it opens. -/
theorem azure_client_release_amended :
    (∀ (env : AzureEnv) (apiOk : Bool),
        Ev.openClient ∈ azure_openai_embed_events env apiOk →
        Ev.closeClient ∈ azure_openai_embed_events env apiOk)
    ∧ (∀ (env : AzureEnv) (apiOk : Bool),
        Ev.closeClient ∉ azure_openai_complete_if_cache_events env apiOk) := by
  constructor
  · intro env apiOk hopen
    unfold azure_openai_embed_events at hopen ⊢
    by_cases hcfg : (pyTruthy env.apiKey && pyTruthy env.endpoint &&
        pyTruthy env.embeddingDeployment) = true
    · rw [if_pos hcfg]
      cases apiOk <;> decide
    · rw [if_neg hcfg] at hopen
      exact absurd hopen (by decide)
  · intro env apiOk
    unfold azure_openai_complete_if_cache_events
    by_cases hcfg : (pyTruthy env.apiKey && pyTruthy env.endpoint &&
        pyTruthy env.llmDeployment) = true
    · rw [if_pos hcfg]
      decide
    · rw [if_neg hcfg]
      decide

/-- Witness for the amended C3: the embedding trace on a failing SDK call
still contains the close event. -/
theorem azure_client_release_amended_witness :
    Ev.openClient ∈ azure_openai_embed_events envFull false
    ∧ Ev.closeClient ∈ azure_openai_embed_events envFull false :=
  ⟨by decide, azure_client_release_amended.1 envFull false (by decide)⟩

/-- C2 counterexample: when a required variable is missing, both entry
points raise with a fixed message that is the same whichever field is
missing and mentions no field name — refuting the claim that the error
names the missing field(s). -/
theorem azure_config_error_not_naming_counterexample :
    azure_openai_complete_if_cache_events envMissingKey true =
      [Ev.raiseError completeConfigErrorMsg]
    ∧ azure_openai_complete_if_cache_events envMissingDeployment true =
      [Ev.raiseError completeConfigErrorMsg]
    ∧ azure_openai_embed_events envMissingKey true = [Ev.raiseError embedConfigErrorMsg]
    ∧ containsSub "key".toList completeConfigErrorMsg = false
    ∧ containsSub "Key".toList completeConfigErrorMsg = false
    ∧ containsSub "KEY".toList completeConfigErrorMsg = false
    ∧ containsSub "endpoint".toList completeConfigErrorMsg = false
    ∧ containsSub "deployment".toList completeConfigErrorMsg = false
    ∧ containsSub "key".toList embedConfigErrorMsg = false
    ∧ containsSub "Key".toList embedConfigErrorMsg = false
    ∧ containsSub "KEY".toList embedConfigErrorMsg = false
    ∧ containsSub "endpoint".toList embedConfigErrorMsg = false := by
  decide

/-- C2 amended: if any required variable is unset or empty, each entry point
raises a `ValueError` before any client is constructed or any network call
is made; the message is the fixed generic one and does not name the missing
field(s). -/
theorem azure_config_error_precedes_network :
    (∀ (env : AzureEnv) (apiOk : Bool),
        (pyTruthy env.apiKey && pyTruthy env.endpoint && pyTruthy env.llmDeployment) = false →
        azure_openai_complete_if_cache_events env apiOk =
          [Ev.raiseError completeConfigErrorMsg]
        ∧ Ev.openClient ∉ azure_openai_complete_if_cache_events env apiOk
        ∧ Ev.apiCall ∉ azure_openai_complete_if_cache_events env apiOk)
    ∧ (∀ (env : AzureEnv) (apiOk : Bool),
        (pyTruthy env.apiKey && pyTruthy env.endpoint &&
          pyTruthy env.embeddingDeployment) = false →
        azure_openai_embed_events env apiOk = [Ev.raiseError embedConfigErrorMsg]
        ∧ Ev.openClient ∉ azure_openai_embed_events env apiOk
        ∧ Ev.apiCall ∉ azure_openai_embed_events env apiOk) := by
  constructor
  · intro env apiOk hcfg
    unfold azure_openai_complete_if_cache_events
    rw [if_neg (by simp [hcfg])]
    exact ⟨rfl, by decide, by decide⟩
  · intro env apiOk hcfg
    unfold azure_openai_embed_events
    rw [if_neg (by simp [hcfg])]
    exact ⟨rfl, by decide, by decide⟩

/-- Witness for the amended C2 with an empty (rather than unset) API key. -/
theorem azure_config_error_precedes_network_witness :
    ((pyTruthy envEmptyKey.apiKey && pyTruthy envEmptyKey.endpoint &&
        pyTruthy envEmptyKey.llmDeployment) = false)
    ∧ azure_openai_complete_if_cache_events envEmptyKey true =
        [Ev.raiseError completeConfigErrorMsg] :=
  ⟨by decide, (azure_config_error_precedes_network.1 envEmptyKey true (by decide)).1⟩

/-- C8: in the test-query loop, every query in the batch is attempted (in
order) regardless of earlier failures, and every failing query gets a
failure log entry. -/
theorem process_queries_continue :
    ∀ (qs : List (List Char × Bool)),
      attemptedQueries (processQueriesEvents qs) = qs.map Prod.fst
      ∧ (∀ q, (q, false) ∈ qs → QueryEv.failedLog q ∈ processQueriesEvents qs) := by
  intro qs
  induction qs with
  | nil => exact ⟨rfl, by simp [processQueriesEvents]⟩
  | cons qb rest ih =>
    obtain ⟨q, ok⟩ := qb
    constructor
    · cases ok with
      | true =>
        simpa [processQueriesEvents, attemptedQueries, List.filterMap_cons] using ih.1
      | false =>
        simpa [processQueriesEvents, attemptedQueries, List.filterMap_cons] using ih.1
    · intro q2 hq2
      rcases List.mem_cons.mp hq2 with heq | hmem
      · injection heq with h1 h2
        subst h1
        subst h2
        simp [processQueriesEvents]
      · have hrec := ih.2 q2 hmem
        simp only [processQueriesEvents]
        exact List.mem_cons_of_mem _ (List.mem_cons_of_mem _ hrec)

/-- Witness for C8 on a batch whose middle query fails. -/
theorem process_queries_continue_witness :
    ("b".toList, false) ∈ [("a".toList, true), ("b".toList, false), ("c".toList, true)]
    ∧ QueryEv.failedLog "b".toList ∈
        processQueriesEvents [("a".toList, true), ("b".toList, false), ("c".toList, true)]
    ∧ attemptedQueries (processQueriesEvents
        [("a".toList, true), ("b".toList, false), ("c".toList, true)]) =
      ["a".toList, "b".toList, "c".toList] :=
  ⟨by decide,
   (process_queries_continue _).2 _ (by decide),
   (process_queries_continue _).1.trans (by decide)⟩

/-- C9 counterexample: on a missing input file, the `main` of
`azure_openai_example.py` and of `fixed_azure_example.py` log the error but
return normally, so the interpreter exits with status 0 — refuting the claim
that every example script exits non-zero in that case. -/
theorem example_main_exit_zero_counterexample :
    azure_openai_example_main false true = ([MainEv.errorFileNotFound], 0)
    ∧ fixed_azure_example_main false true = ([MainEv.errorFileNotFound], 0) := by
  decide

/-- C9 amended: every script reports the missing file and skips processing;
`fixed_azure_custom_example.py` exits with status 1, while the two
argparse-based scripts return normally and exit with status 0. -/
theorem example_main_missing_file_behavior :
    fixed_azure_custom_example_main true false = ([MainEv.errorFileNotFound], 1)
    ∧ (∀ procOk, azure_openai_example_main false procOk = ([MainEv.errorFileNotFound], 0))
    ∧ (∀ procOk, fixed_azure_example_main false procOk = ([MainEv.errorFileNotFound], 0)) := by
  refine ⟨rfl, ?_, ?_⟩ <;> intro procOk <;> rfl

/-- C10: the kwargs forwarded to the SDK are exactly the input pairs whose
key is none of the six `lightrag_params` keys, kept unchanged and in order. -/
theorem filtered_kwargs_spec {α : Type} (kwargs : List (List Char × α))
    (k : List Char) (v : α) :
    ((k, v) ∈ filtered_kwargs kwargs ↔
      ((k, v) ∈ kwargs ∧ k ≠ "azure_endpoint".toList ∧ k ≠ "api_version".toList ∧
        k ≠ "azure_deployment".toList ∧ k ≠ "hashing_kv".toList ∧
        k ≠ "keyword_extraction".toList ∧ k ≠ "enable_cot".toList))
    ∧ (filtered_kwargs kwargs).Sublist kwargs := by
  constructor
  · simp only [filtered_kwargs, List.mem_filter, decide_eq_true_eq, lightrag_params,
      List.mem_cons, List.mem_singleton, not_or, List.not_mem_nil, and_true]
    tauto
  · exact List.filter_sublist _
